import Mathlib

/-!
Verification development for the PrepareAA pipeline wrapper (PrepareAA.py).

The Python source is shallowly embedded: pure data transformations become Lean
functions over parsed inputs, Python dicts become canonical association lists
(`dinsert`/`dget` below), the thread fan-out over the shared region list
becomes an explicit step relation, and the straight-line control flow of the
`__main__` block becomes a function from a configuration record to the list of
effects (external invocations, metadata flushes) it performs.
-/

/-! ## A model of Python dicts as canonical association lists

Python dicts preserve insertion order and overwrite in place.  Dicts in
PrepareAA.py are always built from the empty dict by repeated `d[k] = v`
assignments, so their entry lists never carry duplicate keys; `dinsert`
implements exactly that canonical behaviour. -/
/-- `d[k] = v` on a Python dict: overwrite the (unique) existing entry in
place, else append at the end. -/
def dinsert {α : Type} : List (String × α) → String → α → List (String × α)
  | [], k, v => [(k, v)]
  | p :: t, k, v => if p.1 = k then (k, v) :: t else p :: dinsert t k v

/-- `d.get(k)` / `d[k]` lookup on a Python dict (first — and in a canonical
dict, only — entry with the key). -/
def dget {α : Type} (d : List (String × α)) (k : String) : Option α :=
  (d.find? (fun p => p.1 == k)).map (fun p => p.2)

/-- The key list of a dict (iteration order). -/
def dkeys {α : Type} (d : List (String × α)) : List String :=
  d.map (fun p => p.1)

/-! ## Region Partitioner (PrepareAA.py lines 368-376, 379-397, 709-720)

`get_ref_sizes` parses the reference `.fai` index: we take the parsed lines as
`(contig, recordedLength)` pairs (the code splits each nonempty line on
whitespace and applies `int` to the second field; blank lines are skipped
before this point by the `if fields:` test).  Note the stored size string is
`str(int(fields[1]) - 1)`: one less than the recorded length. -/
/-- `get_ref_sizes` (lines 368-376): fold the parsed index lines into the
`chr_sizes` dict, storing `recordedLength - 1` for each contig. -/
def get_ref_sizes (fai : List (String × Int)) : List (String × Int) :=
  fai.foldl (fun m p => dinsert m p.1 (p.2 - 1)) []

/-- A parsed centromere-annotation row (lines 383-395).  `keyword` models the
test `"centromere" in line or "acen" in line`; `cstart`/`cend` are the integer
values of `fields[1]`/`fields[2]` (the code stores them as decimal strings and
re-parses with `int` when merging). -/
structure CentRow where
  keyword : Bool
  chrom : String
  cstart : Int
  cend : Int
deriving DecidableEq

/-- One loop iteration of `get_ref_centromeres` (lines 384-395): a row
without the keyword is skipped; the first row of a contig is stored as-is;
every later row of the same contig replaces the stored span by
`(min(stored.start, row.start) - 20000, max(stored.end, row.end) + 20000)`. -/
def centDictStep (d : List (String × (Int × Int))) (r : CentRow) : List (String × (Int × Int)) :=
  if !r.keyword then d
  else
    match dget d r.chrom with
    | none => dinsert d r.chrom (r.cstart, r.cend)
    | some pr => dinsert d r.chrom (min pr.1 r.cstart - 20000, max pr.2 r.cend + 20000)

/-- `get_ref_centromeres` (lines 379-397): fold the annotation rows into the
`centromere_dict`. -/
def get_ref_centromeres (rows : List CentRow) : List (String × (Int × Int)) :=
  rows.foldl centDictStep []

/-- The accumulated span a single contig's kept rows produce, in file order:
the first row's raw span, then for each later row min/max against the
accumulator followed by a 20,000-unit pad on both sides. -/
def centMergeStep (o : Option (Int × Int)) (r : CentRow) : Option (Int × Int) :=
  match o with
  | none => some (r.cstart, r.cend)
  | some pr => some (min pr.1 r.cstart - 20000, max pr.2 r.cend + 20000)

/-- A freebayes work region (lines 709-720).  The code builds the tuple
`(contig, "lo-hi", arm)`; we keep the two endpoints of the dash-joined span as
integers. -/
structure Region where
  contig : String
  lo : Int
  hi : Int
  arm : String
deriving DecidableEq

/-- Region construction from the `__main__` block (lines 709-720): for every
entry of `chr_sizes`, two arm regions when the contig has a centromere entry,
else one whole-contig region with empty arm. -/
def buildRegions (chr_sizes : List (String × Int)) (cent : List (String × (Int × Int))) :
    List Region :=
  chr_sizes.foldl
    (fun acc p =>
      match dget cent p.1 with
      | some ct => acc ++ [⟨p.1, 0, ct.1, "p"⟩, ⟨p.1, ct.2, p.2, "q"⟩]
      | none => acc ++ [⟨p.1, 0, p.2, ""⟩])
    []

/-- The regions produced for one contig. -/
def regionsFor (rs : List Region) (c : String) : List Region :=
  rs.filter (fun r => r.contig == c)

/-- Decidable membership of a coordinate in the union of a region list's
half-open spans. -/
def covered (rs : List Region) (x : Int) : Bool :=
  rs.any (fun r => decide (r.lo ≤ x ∧ x < r.hi))

/-- The regions contributed by a single `chr_sizes` entry. -/
def entryRegions (cent : List (String × (Int × Int))) (p : String × Int) : List Region :=
  match dget cent p.1 with
  | some ct => [⟨p.1, 0, ct.1, "p"⟩, ⟨p.1, ct.2, p.2, "q"⟩]
  | none => [⟨p.1, 0, p.2, ""⟩]

/-! ## Concurrent fan-out over the shared region list (lines 86-101, 731-738)

`run_freebayes` workers share the single Python list `regions` and repeatedly
call `regions.pop()` — an atomic test-and-remove of the LAST element under the
interpreter lock — breaking out of the loop on `IndexError` (empty list).  We
model the fan-out as a labelled transition system over the shared queue, the
multiset of regions each worker has processed, and the set of terminated
workers; an execution is any `Relation.ReflTransGen` chain of steps, which
captures every interleaving of the workers. -/
/-- Shared state of the `run_freebayes` worker pool with `k` workers. -/
structure WQState (α : Type) (k : Nat) where
  queue : List α
  processed : Fin k → Multiset α
  finished : Finset (Fin k)

/-- One atomic worker action: `pop` removes the last element of the shared
list and adds it to that worker's processed collection (lines 86-99);
`exitW` is the `IndexError` branch — a worker terminates exactly when its pop
finds the queue empty (lines 89-90). -/
inductive WQStep {α : Type} {k : Nat} : WQState α k → WQState α k → Prop
  | pop (w : Fin k) (r : α) (rest : List α) (s : WQState α k)
      (hw : w ∉ s.finished) (hq : s.queue = rest ++ [r]) :
      WQStep s ⟨rest, Function.update s.processed w (s.processed w + {r}), s.finished⟩
  | exitW (w : Fin k) (s : WQState α k)
      (hw : w ∉ s.finished) (hq : s.queue = []) :
      WQStep s ⟨[], s.processed, insert w s.finished⟩

/-- Any interleaved execution of the worker pool. -/
def WQReach {α : Type} {k : Nat} : WQState α k → WQState α k → Prop :=
  Relation.ReflTransGen WQStep

/-- Initial state: the full region list, nothing processed, no worker
terminated (lines 731-735 start the workers on the shared list). -/
def WQInit (α : Type) (k : Nat) (regions : List α) : WQState α k :=
  ⟨regions, fun _ => 0, ∅⟩

/-! ## Merge of per-region VCF artifacts (`merge_and_filter_vcfs`, lines 182-225)

A VCF text line is modelled by its awk whitespace-separated field list; `zcat`
artifact contents are field-list lists.  `grep -v "^#"` drops lines whose
first character is `#` (for a VCF line, equivalently: whose first field starts
with `#`), and `awk '$4 != "N"'` keeps lines whose fourth field (awk `$4`,
empty when missing) differs from `"N"`.  The dict `chrom_vcf_d` (lines
187-190) maps the contig+arm key parsed from each artifact's filename to the
artifact; we take the per-artifact keys as already parsed, and model an
artifact store as the `(key, content)` list in the arbitrary order `os.listdir`
returned the files.  Lookups `chrom_vcf_d[key]` assume the key is present (a
missing artifact raises `KeyError` in the code; the presence hypothesis below
records that assumption). -/
/-- A VCF line as its whitespace-separated fields. -/
abbrev VLine := List String

/-- Does the line start with `#` (a header line)?  The one-character prefix
test is written on the underlying character list so that it computes. -/
def isHeader (l : VLine) : Bool :=
  match l.head? with
  | some f =>
    match f.data with
    | c :: _ => c == '#'
    | [] => false
  | none => false

/-- awk `$4`: the fourth field, empty if the line has fewer fields. -/
def fourthField (l : VLine) : String :=
  l.getD 3 ""

/-- `awk '$4 != "N"'`. -/
def filterN (ls : List VLine) : List VLine :=
  ls.filter (fun l => !(fourthField l == "N"))

/-- `grep -v "^#"`. -/
def stripHdr (ls : List VLine) : List VLine :=
  ls.filter (fun l => !isHeader l)

/-- `pre_chr_str_names = [str(x) for x in range(1, 23)] + ["X", "Y"]`
(line 193). -/
def preChrStrNames : List String :=
  (List.range' 1 22).map (fun n => toString n) ++ ["X", "Y"]

/-- `sorted_chr_names` (lines 197-203): `chr`-prefixed except for GRCh37 /
GRCm38 references; `chrStyle` is the condition
`args.ref != "GRCh37" and args.ref != "GRCm38"`. -/
def sortedChrNames (chrStyle : Bool) : List String :=
  if chrStyle then preChrStrNames.map (fun x => "chr" ++ x) else preChrStrNames

/-- The key of the mitochondrial artifact (lines 199, 203). -/
def mitoKey (chrStyle : Bool) : String :=
  if chrStyle then "chrM" else "MT"

/-- The shell actions `merge_and_filter_vcfs` issues on the merged file:
truncating write of the filtered mitochondrial content (lines 199-206),
appends of each stripped arm artifact (lines 210-219), and the final
`gzip -f` (lines 221-223). -/
inductive MCmd where
  | initWrite (ls : List VLine)
  | append (ls : List VLine)
  | gzipF
deriving DecidableEq

/-- The command sequence of `merge_and_filter_vcfs` (lines 199-223): write
the `$4 != "N"`-filtered mitochondrial artifact, then for every contig in
`sorted_chr_names` (skipping the mitochondrial names, the dead `continue` of
lines 211-212) append the header-stripped, `N`-filtered `p` then `q` arm
artifacts, then gzip. -/
def mergeCmds (d : String → List VLine) (chrStyle : Bool) : List MCmd :=
  [MCmd.initWrite (filterN (d (mitoKey chrStyle)))] ++
  (sortedChrNames chrStyle).flatMap (fun i =>
    if i = "chrM" ∨ i = "MT" then []
    else [MCmd.append (filterN (stripHdr (d (i ++ "p")))),
          MCmd.append (filterN (stripHdr (d (i ++ "q"))))]) ++
  [MCmd.gzipF]

/-- Effect of one shell action on the merged file's content (`>` truncates,
`>>` appends, gzip keeps the content). -/
def runMergeStep (acc : List VLine) (c : MCmd) : List VLine :=
  match c with
  | MCmd.initWrite ls => ls
  | MCmd.append ls => acc ++ ls
  | MCmd.gzipF => acc

/-- Final content of the merged file after the command sequence. -/
def runMerge (cmds : List MCmd) : List VLine :=
  cmds.foldl runMergeStep []

/-- `chrom_vcf_d` (lines 187-190): successive dict assignments keyed by the
contig+arm parsed from each filename. -/
def buildDict (arts : List (String × List VLine)) : List (String × List VLine) :=
  arts.foldl (fun d p => dinsert d p.1 p.2) []

/-- `chrom_vcf_d[key]` (with the artifact assumed present). -/
def dictLookup (d : List (String × List VLine)) (k : String) : List VLine :=
  (dget d k).getD []

/-- The artifact keys the merge step reads. -/
def neededKeys (chrStyle : Bool) : List String :=
  mitoKey chrStyle :: (sortedChrNames chrStyle).flatMap (fun i => [i ++ "p", i ++ "q"])

/-- The merged content as the specification words it: the mitochondrial
artifact with every record whose reference base is `"N"` removed and the
header kept, followed for each contig in the fixed order 1..22, X, Y by the
`p`-arm then the `q`-arm artifact with header lines and `"N"`-reference
records stripped. -/
def specMergedVcf (d : String → List VLine) (chrStyle : Bool) : List VLine :=
  (d (mitoKey chrStyle)).filter (fun l => isHeader l || !(fourthField l == "N")) ++
  (sortedChrNames chrStyle).flatMap (fun i =>
    (d (i ++ "p")).filter (fun l => !isHeader l && !(fourthField l == "N")) ++
    (d (i ++ "q")).filter (fun l => !isHeader l && !(fourthField l == "N")))

/-- The last value assigned to a key in an assignment list (dict overwrite
semantics). -/
def lastOcc {α : Type} : List (String × α) → String → Option α
  | [], _ => none
  | p :: t, k =>
    match lastOcc t k with
    | some v => some v
    | none => if p.1 = k then some p.2 else none

/-- A small mitochondrial VCF artifact: one header line, one kept record, one
record with reference base `"N"`. -/
def c3Mito : List VLine :=
  [["#CHROM", "POS", "ID", "REF"], ["MT", "5", ".", "A"], ["MT", "9", ".", "N"]]

/-- A full artifact store for a GRCh37-style run: the mitochondrial artifact
plus an (empty) artifact for every arm key. -/
def c3Arts : List (String × List VLine) :=
  ("MT", c3Mito) :: ((neededKeys false).drop 1).map (fun k => (k, ([] : List VLine)))

/-- The same artifacts listed in the reverse completion order. -/
def c3Arts2 : List (String × List VLine) :=
  c3Arts.reverse

/-! ## CNVkit segment normalization (`convert_cnvkit_cnv_to_seeds`, lines 251-269)

The `.cns` file's first line is the header (consumed by `next(infile)`); each
remaining line's fields 0-2 are copied verbatim into the output, and field 4
(the log2 ratio, parsed by `float`) determines the copy number
`2 ** (cn_r + 1)`.  (Fields 1 and 2 are also parsed by `int` into `s, e`,
which the code never uses.)  Floats are modelled as real numbers. -/
/-- A parsed `.cns` line: the raw text of fields 0-2 and the parsed value of
field 4. -/
structure CnsLine where
  chrom : String
  startF : String
  endF : String
  log2r : ℝ

/-- An output seed row: fields 0-2 verbatim, the caller label, and the copy
number. -/
structure Seed where
  chrom : String
  startF : String
  endF : String
  source : String
  cn : ℝ

/-- `convert_cnvkit_cnv_to_seeds` (lines 251-269): skip the header line, then
emit one seed per data row, unconditionally (the gain filter at line 265 is
commented out), labelled `CNVkit`, with copy number `2 ** (cn_r + 1)`. -/
noncomputable def convert_cnvkit_cnv_to_seeds (lines : List CnsLine) : List Seed :=
  (lines.drop 1).foldl
    (fun out r => out ++ [⟨r.chrom, r.startF, r.endF, "CNVkit", (2:ℝ) ^ (r.log2r + 1)⟩]) []

/-! ## Rescaling and the `__main__` stage controller

Python truthiness drives both the controller's rescaling guard (line 765,
`if args.ploidy or args.purity:`) and `rescale_cnvkit_calls` (lines 272-289):
`None`, integer `0` and float `0.0` are all falsy.  Floats are modelled as
rationals.  The straight-line `__main__` flow (lines 674-852) is embedded as a
function from the parsed argument record to the trace of effects it performs:
the external stage invocations, the two metadata flushes, and the exit code
(`sys.exit()` at line 703 exits with status 0). -/
/-- Python truthiness of `args.ploidy : Option Int`. -/
def truthyOptInt : Option Int → Bool
  | none => false
  | some n => !(n == 0)

/-- Python truthiness of `args.purity : Option Float` (floats as rationals). -/
def truthyOptRat : Option ℚ → Bool
  | none => false
  | some q => !(q == 0)

/-- The observable shape of a `rescale_cnvkit_calls` invocation: whether the
no-effect warning is printed, and which estimate flags the external command
line carries. -/
structure RescaleCall where
  warned : Bool
  cmdFlags : List String

/-- `rescale_cnvkit_calls` (lines 272-289): warn iff neither estimate is
truthy; append `--purity` then `--ploidy` flags for the truthy estimates
only. -/
def rescale_cnvkit_calls (ploidy : Option Int) (purity : Option ℚ) : RescaleCall :=
  { warned := !truthyOptRat purity && !truthyOptInt ploidy
    cmdFlags :=
      (if truthyOptRat purity then ["--purity " ++ toString (purity.getD 0)] else []) ++
      (if truthyOptInt ploidy then ["--ploidy " ++ toString (ploidy.getD 0)] else []) }

/-- The parsed command-line record, restricted to the fields the control flow
after initialization reads.  Optional path/string arguments use `""` for
"not supplied" (both `None` and `""` are falsy in the source's tests);
`bambase` is the basename of the sorted bam (line 690). -/
structure Args where
  fastqs : Bool
  completed_AA_runs : String
  align_only : Bool
  no_QC : Bool
  canvas_dir : String
  cnvkit_dir : String
  reuse_canvas : Bool
  cnv_bed : String
  vcf : String
  no_filter : Bool
  run_AA : Bool
  run_AC : Bool
  ploidy : Option Int
  purity : Option ℚ
  completed_run_metadata : String
  output_directory : String
  sample_name : String
  bambase : String
deriving DecidableEq

/-- The effects the controller can perform, in program order. -/
inductive Ev where
  | runBwa
  | qcCheck
  | getCents
  | freebayesFanout
  | mergeVcfs
  | runCanvasEv
  | convertCanvasEv
  | runCnvkitEv
  | rescaleEv
  | convertCnvkitEv
  | prefilterEv
  | amplifiedIntervalsEv
  | runAAEv
  | runACEv
  | makeACTableEv
  | flushRunMeta
  | flushSampleMeta
deriving DecidableEq

/-- Python `str.endswith`, on the character lists so that it computes. -/
def strEndsWith (s suf : String) : Bool :=
  List.isSuffixOf suf.data s.data

/-- `runCNV` selection (lines 583-588): Canvas if a Canvas directory was
given, else CNVkit if a cnvkit path was given. -/
def runCNVsel (a : Args) : Option String :=
  if a.canvas_dir ≠ "" then some "Canvas"
  else if a.cnvkit_dir ≠ "" then some "CNVkit"
  else none

/-- The controller's rescaling trigger (line 765:
`if args.ploidy or args.purity:`). -/
def rescaleGuard (a : Args) : Bool :=
  truthyOptInt a.ploidy || truthyOptRat a.purity

/-- Events of the CNV-calling stage (lines 709-772). -/
def cnvStageEvents (a : Args) : List Ev :=
  if runCNVsel a = some "Canvas" then
    (if a.vcf = "" then [Ev.freebayesFanout, Ev.mergeVcfs] else []) ++
      [Ev.runCanvasEv, Ev.convertCanvasEv]
  else if a.reuse_canvas then [Ev.convertCanvasEv]
  else if runCNVsel a = some "CNVkit" then
    [Ev.runCnvkitEv] ++ (if rescaleGuard a then [Ev.rescaleEv] else []) ++
      [Ev.convertCnvkitEv]
  else []

/-- The `args.cnv_bed` value after the CNV-calling stage (lines 753, 756,
772; unchanged when an external bed was supplied). -/
def cnvStageBed (a : Args) : String :=
  if runCNVsel a = some "Canvas" then
    a.output_directory ++ "canvas_output/" ++ "/CNV_GAIN.bed"
  else if a.reuse_canvas then
    a.output_directory ++ "canvas_output/" ++ "/CNV_GAIN.bed"
  else if runCNVsel a = some "CNVkit" then
    a.output_directory ++ a.sample_name ++ "_cnvkit_output/" ++ a.bambase ++ "_CNV_CALLS.bed"
  else a.cnv_bed

/-- Events of the raw-`.cns` normalization (lines 774-775). -/
def cnsEvents (a : Args) : List Ev :=
  if strEndsWith (cnvStageBed a) ".cns" then [Ev.convertCnvkitEv] else []

/-- The bed path after the raw-`.cns` normalization (line 775). -/
def cnsBed (a : Args) : String :=
  if strEndsWith (cnvStageBed a) ".cns" then
    a.output_directory ++ a.bambase ++ "_CNV_CALLS.bed"
  else cnvStageBed a

/-- Outcome of the seed-filtering block (lines 783-793): whether
`cnv_prefilter.prefilter_bed` ran, whether `run_amplified_intervals` ran, and
the amplified-interval bed used downstream. -/
structure SeedFilterRes where
  ranPrefilter : Bool
  ranAmplified : Bool
  bed : String
deriving DecidableEq

/-- The seed-filtering block (lines 783-793): filtering is skipped entirely —
returning the input path — when `--no_filter` is set or the input already
carries the `_AA_CNV_SEEDS.bed` naming convention; otherwise prefilter (unless
already `_CNV_CALLS_pre_filtered.bed`) and run `amplified_intervals.py`,
whose output is `outdir + sname + "_AA_CNV_SEEDS" + ".bed"` (lines 294,
301). -/
def seedFilterStep (no_filter : Bool) (cnv_bed : String) (outdir sname : String) :
    SeedFilterRes :=
  if !no_filter && !(strEndsWith cnv_bed "_AA_CNV_SEEDS.bed") then
    { ranPrefilter := !(strEndsWith cnv_bed "_CNV_CALLS_pre_filtered.bed")
      ranAmplified := true
      bed := outdir ++ sname ++ "_AA_CNV_SEEDS" ++ ".bed" }
  else
    { ranPrefilter := false, ranAmplified := false, bed := cnv_bed }

/-- The observable outcome of one controller run. -/
structure MainTrace where
  events : List Ev
  exitCode : Nat
  runMetadataFileField : Option String
deriving DecidableEq

/-- Events up to and including QC (lines 674-692): the optional bwa stage and
the properly-paired check unless `--no_QC`. -/
def alignEvents (a : Args) : List Ev :=
  (if a.fastqs then [Ev.runBwa] else []) ++ (if !a.no_QC then [Ev.qcCheck] else [])

/-- The seed-filter outcome the full branch computes (line 783 applies the
block to the post-CNV bed path). -/
def sfRes (a : Args) : SeedFilterRes :=
  seedFilterStep a.no_filter (cnsBed a) a.output_directory a.sample_name

/-- Events of the seed-filtering block (lines 783-793). -/
def seedFilterEvents (a : Args) : List Ev :=
  (if (sfRes a).ranPrefilter then [Ev.prefilterEv] else []) ++
  (if (sfRes a).ranAmplified then [Ev.amplifiedIntervalsEv] else [])

/-- Events of the optional AA / AC stages (lines 799-819). -/
def aaStageEvents (a : Args) : List Ev :=
  if a.run_AA then [Ev.runAAEv] ++ (if a.run_AC then [Ev.runACEv] else []) else []

/-- The end of the full-pipeline branch (lines 824-826): `save_run_metadata`,
the optional AC results table, then — falling through to lines 843-846 — the
sample-metadata flush. -/
def finalizeEvents (a : Args) : List Ev :=
  [Ev.flushRunMeta] ++ (if a.run_AA && a.run_AC then [Ev.makeACTableEv] else []) ++
  [Ev.flushSampleMeta]

/-- All events of the full-pipeline branch after the align-only check (lines
705-826 plus the common tail at lines 843-846). -/
def fullBranchEvents (a : Args) : List Ev :=
  alignEvents a ++ [Ev.getCents] ++ cnvStageEvents a ++ cnsEvents a ++
  seedFilterEvents a ++ aaStageEvents a ++ finalizeEvents a

/-- The `__main__` control flow after initialization (lines 674-852) as the
trace of effects: either the full-pipeline branch (lines 680-826: with the
`align_only` exit at lines 697-703, which flushes nothing and exits with
status 0 via the bare `sys.exit()`), or the classify-a-completed-run branch
(lines 828-841, which sets the sample record's run-metadata field to the
supplied `--completed_run_metadata` path instead of writing a new run
metadata record), each followed by the common sample-metadata flush at lines
843-846 unless the align-only exit fired first. -/
def mainTrace (a : Args) : MainTrace :=
  if a.completed_AA_runs = "" then
    if a.align_only then
      { events := alignEvents a, exitCode := 0, runMetadataFileField := none }
    else
      { events := fullBranchEvents a
        exitCode := 0
        runMetadataFileField :=
          some (a.output_directory ++ a.sample_name ++ "_run_metadata.json") }
  else
    { events := (if a.fastqs then [Ev.runBwa] else []) ++
        [Ev.runACEv, Ev.makeACTableEv, Ev.flushSampleMeta]
      exitCode := 0
      runMetadataFileField := some a.completed_run_metadata }

/-- A classify-a-pre-completed-run configuration (`--completed_AA_runs`
supplied). -/
def aClassify : Args :=
  { fastqs := false
    completed_AA_runs := "/done"
    align_only := false
    no_QC := false
    canvas_dir := ""
    cnvkit_dir := ""
    reuse_canvas := false
    cnv_bed := ""
    vcf := ""
    no_filter := false
    run_AA := false
    run_AC := false
    ploidy := none
    purity := none
    completed_run_metadata := "meta.json"
    output_directory := "/out/"
    sample_name := "s"
    bambase := "s" }

/-- A plain full-pipeline configuration (sorted-bam entry, external bed, no
optional stages). -/
def aFull : Args :=
  { fastqs := false
    completed_AA_runs := ""
    align_only := false
    no_QC := false
    canvas_dir := ""
    cnvkit_dir := ""
    reuse_canvas := false
    cnv_bed := "/in/x.bed"
    vcf := ""
    no_filter := false
    run_AA := false
    run_AC := false
    ploidy := none
    purity := none
    completed_run_metadata := ""
    output_directory := "/out/"
    sample_name := "s"
    bambase := "s" }

/-- The align-only configuration: raw-reads entry with `--align_only`. -/
def aAlignOnly : Args :=
  { fastqs := true
    completed_AA_runs := ""
    align_only := true
    no_QC := false
    canvas_dir := ""
    cnvkit_dir := ""
    reuse_canvas := false
    cnv_bed := ""
    vcf := ""
    no_filter := false
    run_AA := false
    run_AC := false
    ploidy := none
    purity := none
    completed_run_metadata := ""
    output_directory := "/out/"
    sample_name := "s"
    bambase := "s" }

/-- A CNVkit configuration supplying explicit zero estimates. -/
def aZero : Args :=
  { fastqs := false
    completed_AA_runs := ""
    align_only := false
    no_QC := false
    canvas_dir := ""
    cnvkit_dir := "/ck"
    reuse_canvas := false
    cnv_bed := ""
    vcf := ""
    no_filter := false
    run_AA := false
    run_AC := false
    ploidy := some 0
    purity := some 0
    completed_run_metadata := ""
    output_directory := "/out/"
    sample_name := "s"
    bambase := "s" }

/-! ## Provenance record (`save_run_metadata`, lines 400-447)

`metadata_dict` is a dict from key strings to strings; `save_run_metadata`
assigns the six run-level keys (launch time, hostname, reference genome,
interpreter version, full command string, pipeline version) and then defaults
every stage key that was never assigned to the sentinel `"NA"`. -/
/-- The per-stage keys defaulted at lines 436-439, in the loop's order. -/
def stageMetaKeys : List String :=
  ["bwa_cmd", "cnvkit_cmd", "amplified_intervals_cmd", "AA_cmd", "AC_cmd",
   "cnvkit_version", "AA_version", "AC_version"]

/-- The fixed schema of the persisted run-metadata record: the six run-level
keys assigned at lines 414-434 plus the defaulted stage keys. -/
def runMetaSchema : List String :=
  ["launch_datetime", "hostname", "ref_genome", "AA_python_version", "PAA_command",
   "PAA_version"] ++ stageMetaKeys

/-- `save_run_metadata` (lines 400-447): assign the six run-level values (the
pipeline version is the module constant `"0.1203.13"`), then set every absent
stage key to `"NA"`; the resulting dict is what `json.dump` persists. -/
def save_run_metadata (md : List (String × String))
    (launchtime hostname refGenome pythonV commandstring : String) :
    List (String × String) :=
  let md6 :=
    dinsert (dinsert (dinsert (dinsert (dinsert (dinsert md
      "launch_datetime" launchtime)
      "hostname" hostname)
      "ref_genome" refGenome)
      "AA_python_version" pythonV)
      "PAA_command" commandstring)
      "PAA_version" "0.1203.13"
  stageMetaKeys.foldl (fun m x => if dget m x = none then dinsert m x "NA" else m) md6

/-! ## Lemmas and claim theorems -/

/-! ### Association-list lemmas -/
theorem dkeys_cons {α : Type} (p : String × α) (t : List (String × α)) :
    dkeys (p :: t) = p.1 :: dkeys t := rfl

theorem dget_cons {α : Type} (p : String × α) (d : List (String × α)) (k : String) :
    dget (p :: d) k = if p.1 = k then some p.2 else dget d k := by
  by_cases h : p.1 = k
  · simp [dget, List.find?_cons, h]
  · have hb : (p.1 == k) = false := by simp [h]
    simp [dget, List.find?_cons, hb, h]

theorem dget_dinsert {α : Type} (d : List (String × α)) (k : String) (v : α) (k' : String) :
    dget (dinsert d k v) k' = if k' = k then some v else dget d k' := by
  induction d with
  | nil =>
    show dget [(k, v)] k' = _
    rw [dget_cons]
    by_cases h : k' = k
    · rw [if_pos h.symm, if_pos h]
    · rw [if_neg (fun hc => h hc.symm), if_neg h]
  | cons p t ih =>
    by_cases hpk : p.1 = k
    · simp only [dinsert]
      rw [if_pos hpk]
      rw [dget_cons, dget_cons]
      by_cases h : k' = k
      · rw [if_pos h.symm, if_pos h]
      · rw [if_neg (fun hc => h hc.symm), if_neg h,
          if_neg (fun hc : p.1 = k' => h (hc.symm.trans hpk))]
    · simp only [dinsert]
      rw [if_neg hpk, dget_cons, dget_cons, ih]
      by_cases hp : p.1 = k'
      · rw [if_pos hp, if_neg (fun hc : k' = k => hpk (hp.trans hc)), if_pos hp]
      · rw [if_neg hp, if_neg hp]

theorem dget_eq_none_iff {α : Type} (d : List (String × α)) (k : String) :
    dget d k = none ↔ k ∉ dkeys d := by
  induction d with
  | nil => simp [dget, dkeys]
  | cons p t ih =>
    rw [dget_cons, dkeys_cons]
    by_cases h : p.1 = k
    · simp [h]
    · rw [if_neg h, ih]
      simp only [List.mem_cons]
      constructor
      · intro hn hor
        rcases hor with h1 | h2
        · exact h h1.symm
        · exact hn h2
      · intro hn hm
        exact hn (Or.inr hm)

theorem dkeys_dinsert {α : Type} (d : List (String × α)) (k : String) (v : α) :
    dkeys (dinsert d k v) = if k ∈ dkeys d then dkeys d else dkeys d ++ [k] := by
  induction d with
  | nil => simp [dinsert, dkeys]
  | cons p t ih =>
    by_cases h : p.1 = k
    · simp only [dinsert]
      rw [if_pos h, dkeys_cons, dkeys_cons,
        if_pos (by rw [List.mem_cons]; exact Or.inl h.symm)]
      simp [h]
    · simp only [dinsert]
      rw [if_neg h, dkeys_cons, dkeys_cons, ih]
      by_cases hm : k ∈ dkeys t
      · rw [if_pos hm, if_pos (by rw [List.mem_cons]; exact Or.inr hm)]
      · rw [if_neg hm, if_neg (by
          rw [List.mem_cons]
          rintro (h1 | h2)
          · exact h h1.symm
          · exact hm h2)]
        rfl

theorem dkeys_dinsert_nodup {α : Type} (d : List (String × α)) (k : String) (v : α)
    (h : (dkeys d).Nodup) : (dkeys (dinsert d k v)).Nodup := by
  rw [dkeys_dinsert]
  by_cases hm : k ∈ dkeys d
  · rwa [if_pos hm]
  · rw [if_neg hm]
    refine List.Nodup.append h (List.nodup_singleton k) ?_
    intro a ha hk
    rw [List.mem_singleton] at hk
    subst hk
    exact hm ha

theorem get_ref_sizes_keys_nodup (fai : List (String × Int)) :
    (dkeys (get_ref_sizes fai)).Nodup := by
  suffices h : ∀ d : List (String × Int), (dkeys d).Nodup →
      (dkeys (fai.foldl (fun m p => dinsert m p.1 (p.2 - 1)) d)).Nodup by
    exact h [] (by simp [dkeys])
  induction fai with
  | nil => intro d hd; simpa using hd
  | cons p t ih =>
    intro d hd
    exact ih _ (dkeys_dinsert_nodup _ _ _ hd)

theorem foldl_append_eq_flatMap {α β : Type} (g : α → List β) (l : List α) (acc : List β) :
    l.foldl (fun a x => a ++ g x) acc = acc ++ l.flatMap g := by
  induction l generalizing acc with
  | nil => simp
  | cons x t ih => simp [ih, List.append_assoc]

theorem buildRegions_eq_flatMap (m : List (String × Int)) (cent : List (String × (Int × Int))) :
    buildRegions m cent = m.flatMap (entryRegions cent) := by
  have h : buildRegions m cent = m.foldl (fun a p => a ++ entryRegions cent p) [] := by
    unfold buildRegions
    congr 1
    funext a p
    unfold entryRegions
    cases dget cent p.1 <;> simp
  rw [h, foldl_append_eq_flatMap]
  simp

theorem regionsFor_flatMap (m : List (String × Int)) (cent : List (String × (Int × Int)))
    (c : String) :
    regionsFor (buildRegions m cent) c =
      m.flatMap (fun p => if p.1 = c then entryRegions cent p else []) := by
  rw [buildRegions_eq_flatMap]
  unfold regionsFor
  rw [List.filter_flatMap]
  congr 1
  funext p
  by_cases h : p.1 = c
  · rw [if_pos h]
    unfold entryRegions
    cases dget cent p.1 <;> simp [h]
  · rw [if_neg h]
    unfold entryRegions
    cases dget cent p.1 <;> simp [h]

theorem flatMap_entry_eq_nil {α : Type} (f : String × α → List Region)
    (m : List (String × α)) (c : String) (hnm : c ∉ dkeys m) :
    (m.flatMap (fun p => if p.1 = c then f p else [])) = [] := by
  induction m with
  | nil => simp
  | cons p t ih =>
    rw [dkeys_cons, List.mem_cons] at hnm
    push_neg at hnm
    simp only [List.flatMap_cons]
    rw [if_neg (fun hc => hnm.1 hc.symm), ih hnm.2]
    simp

theorem regionsFor_buildRegions (m : List (String × Int)) (cent : List (String × (Int × Int)))
    (c : String) (L : Int) (hnd : (dkeys m).Nodup) (hget : dget m c = some L) :
    regionsFor (buildRegions m cent) c = entryRegions cent (c, L) := by
  rw [regionsFor_flatMap]
  induction m with
  | nil => simp [dget] at hget
  | cons p t ih =>
    rw [dkeys_cons, List.nodup_cons] at hnd
    rw [dget_cons] at hget
    by_cases h : p.1 = c
    · rw [if_pos h] at hget
      simp only [List.flatMap_cons]
      rw [if_pos h, flatMap_entry_eq_nil _ _ _ (h ▸ hnd.1), List.append_nil]
      have hp : p = (c, L) := by
        cases p
        simp at h hget
        simp [h, hget]
      rw [hp]
    · rw [if_neg h] at hget
      simp only [List.flatMap_cons]
      rw [if_neg h, List.nil_append]
      exact ih hnd.2 hget

/-- C1, counterexample.  The claim asserts the per-contig regions' union
equals `[0, contigLength)` with `contigLength` the length recorded in the
reference index.  On the index line `("chr1", 1000000)` with centromere span
`(400000, 500000)`, the point `450000` (inside the centromere) and the point
`999999` (the code stores `recordedLength - 1` as the contig size) both lie in
`[0, 1000000)` yet are covered by no produced region. -/
theorem regionPartitioner_union_counterexample :
    (0:Int) ≤ 450000 ∧ (450000:Int) < 1000000 ∧
    covered (regionsFor (buildRegions (get_ref_sizes [("chr1", 1000000)])
      [("chr1", (400000, 500000))]) "chr1") 450000 = false ∧
    (0:Int) ≤ 999999 ∧ (999999:Int) < 1000000 ∧
    covered (regionsFor (buildRegions (get_ref_sizes [("chr1", 1000000)])
      [("chr1", (400000, 500000))]) "chr1") 999999 = false := by
  decide

/-- C1, amended.  For a contig in both maps the Region Partitioner produces
exactly the two regions `(contig, 0, centromereStart, "p")` and
`(contig, centromereEnd, contigLength, "q")`; a contig only in the length map
produces exactly one region with empty arm; the two arm regions are
non-overlapping; and the union of a contig's regions equals
`[0, contigLength)` with the centromere span `[centromereStart, centromereEnd)`
removed — where `contigLength` is the recorded reference-index length minus
one (the value `get_ref_sizes` stores). -/
theorem regionPartitioner_amended
    (fai : List (String × Int)) (cent : List (String × (Int × Int))) (c : String) :
    (∀ L cs ce : Int,
      dget (get_ref_sizes fai) c = some L →
      dget cent c = some (cs, ce) →
      regionsFor (buildRegions (get_ref_sizes fai) cent) c =
        [⟨c, 0, cs, "p"⟩, ⟨c, ce, L, "q"⟩] ∧
      (cs ≤ ce → ∀ x : Int, ¬((0 ≤ x ∧ x < cs) ∧ (ce ≤ x ∧ x < L))) ∧
      (0 ≤ cs → cs ≤ ce → ce ≤ L →
        ∀ x : Int,
          covered (regionsFor (buildRegions (get_ref_sizes fai) cent) c) x = true ↔
            (0 ≤ x ∧ x < L ∧ ¬(cs ≤ x ∧ x < ce)))) ∧
    (∀ L : Int,
      dget (get_ref_sizes fai) c = some L →
      dget cent c = none →
      regionsFor (buildRegions (get_ref_sizes fai) cent) c = [⟨c, 0, L, ""⟩] ∧
      ∀ x : Int,
        covered (regionsFor (buildRegions (get_ref_sizes fai) cent) c) x = true ↔
          (0 ≤ x ∧ x < L)) ∧
    (∀ (c' : String) (n : Int), dget (get_ref_sizes [(c', n)]) c' = some (n - 1)) := by
  refine ⟨?_, ?_, ?_⟩
  · intro L cs ce hL hcent
    have hreg : regionsFor (buildRegions (get_ref_sizes fai) cent) c =
        [⟨c, 0, cs, "p"⟩, ⟨c, ce, L, "q"⟩] := by
      rw [regionsFor_buildRegions _ _ _ _ (get_ref_sizes_keys_nodup fai) hL]
      unfold entryRegions
      rw [hcent]
    refine ⟨hreg, ?_, ?_⟩
    · intro hle x
      omega
    · intro h0 hle hceL x
      rw [hreg]
      simp only [covered, List.any_cons, List.any_nil, Bool.or_false, Bool.or_eq_true,
        decide_eq_true_eq]
      omega
  · intro L hL hcent
    have hreg : regionsFor (buildRegions (get_ref_sizes fai) cent) c = [⟨c, 0, L, ""⟩] := by
      rw [regionsFor_buildRegions _ _ _ _ (get_ref_sizes_keys_nodup fai) hL]
      unfold entryRegions
      rw [hcent]
    refine ⟨hreg, ?_⟩
    intro x
    rw [hreg]
    simp only [covered, List.any_cons, List.any_nil, Bool.or_false, Bool.or_eq_true,
      decide_eq_true_eq]
  · intro c' n
    simp [get_ref_sizes, dinsert, dget_cons]

/-- C1, witness for the amended theorem at a concrete index and centromere
map. -/
theorem regionPartitioner_amended_witness :
    dget (get_ref_sizes [("chr1", 1000000), ("chrM", 16570)]) "chr1" = some 999999 ∧
    dget [("chr1", ((400000:Int), (500000:Int)))] "chr1" = some (400000, 500000) ∧
    regionsFor (buildRegions (get_ref_sizes [("chr1", 1000000), ("chrM", 16570)])
        [("chr1", (400000, 500000))]) "chr1" =
      [⟨"chr1", 0, 400000, "p"⟩, ⟨"chr1", 500000, 999999, "q"⟩] :=
  ⟨by decide, by decide,
    ((regionPartitioner_amended [("chr1", 1000000), ("chrM", 16570)]
      [("chr1", (400000, 500000))] "chr1").1 999999 400000 500000
      (by decide) (by decide)).1⟩

theorem dget_centDictStep_eq (d : List (String × (Int × Int))) (r : CentRow) (c : String)
    (hc : r.chrom = c) (hk : r.keyword = true) :
    dget (centDictStep d r) c = centMergeStep (dget d c) r := by
  unfold centDictStep
  rw [if_neg (by simp [hk])]
  subst hc
  cases hdg : dget d r.chrom with
  | none =>
    rw [dget_dinsert, if_pos rfl]
    rfl
  | some pr =>
    rw [dget_dinsert, if_pos rfl]
    rfl

theorem dget_centDictStep_ne (d : List (String × (Int × Int))) (r : CentRow) (c : String)
    (hc : ¬r.chrom = c) :
    dget (centDictStep d r) c = dget d c := by
  unfold centDictStep
  by_cases hk : (!r.keyword) = true
  · rw [if_pos hk]
  · rw [if_neg hk]
    cases hdg : dget d r.chrom with
    | none => rw [dget_dinsert, if_neg (fun h => hc h.symm)]
    | some pr => rw [dget_dinsert, if_neg (fun h => hc h.symm)]

theorem dget_foldl_centDictStep (rows : List CentRow) (d : List (String × (Int × Int)))
    (c : String) :
    dget (rows.foldl centDictStep d) c =
      (rows.filter (fun r => r.keyword && r.chrom == c)).foldl centMergeStep (dget d c) := by
  induction rows generalizing d with
  | nil => rfl
  | cons r t ih =>
    rw [List.foldl_cons, List.filter_cons]
    by_cases hk : r.keyword = true
    · by_cases hc : r.chrom = c
      · rw [if_pos (by simp [hk, hc]), List.foldl_cons, ih,
          dget_centDictStep_eq d r c hc hk]
      · rw [if_neg (by simp [hc]), ih, dget_centDictStep_ne d r c hc]
    · rw [if_neg (by simp [hk]), ih]
      congr 1
      unfold centDictStep
      rw [if_pos (by simp [hk])]

/-- C5, counterexample.  The claim says every contig's entry is the min/max
span across its rows with a 20,000-unit pad applied exactly once per side,
including for a single-row contig.  In the code a single row is stored with no
padding at all, and with three rows the pad is applied twice per side. -/
theorem getRefCentromeres_counterexample :
    dget (get_ref_centromeres [⟨true, "chr1", 100000, 200000⟩]) "chr1" =
      some (100000, 200000) ∧
    dget (get_ref_centromeres [⟨true, "chr1", 100000, 200000⟩]) "chr1" ≠
      some (80000, 220000) ∧
    dget (get_ref_centromeres
        [⟨true, "chr2", 100, 200⟩, ⟨true, "chr2", 100, 200⟩, ⟨true, "chr2", 100, 200⟩])
      "chr2" = some (-39900, 40200) ∧
    dget (get_ref_centromeres
        [⟨true, "chr2", 100, 200⟩, ⟨true, "chr2", 100, 200⟩, ⟨true, "chr2", 100, 200⟩])
      "chr2" ≠ some (-19900, 20200) := by
  refine ⟨by decide, by decide, by decide, by decide⟩

/-- C5, amended.  A contig's centromere-map entry equals the left fold of its
keyword rows in file order: the first row's span is stored unpadded, and each
later row replaces the accumulator by the min-start/max-end against that row
padded by 20,000 on both sides — so one row receives no padding and k rows
receive k-1 pads per side.  In particular a single row is stored raw, and two
rows give exactly the claimed min/max-with-one-pad span. -/
theorem getRefCentromeres_amended :
    (∀ (rows : List CentRow) (c : String),
      dget (get_ref_centromeres rows) c =
        (rows.filter (fun r => r.keyword && r.chrom == c)).foldl centMergeStep none) ∧
    (∀ (c : String) (s e : Int),
      dget (get_ref_centromeres [⟨true, c, s, e⟩]) c = some (s, e)) ∧
    (∀ (c : String) (s1 e1 s2 e2 : Int),
      dget (get_ref_centromeres [⟨true, c, s1, e1⟩, ⟨true, c, s2, e2⟩]) c =
        some (min s1 s2 - 20000, max e1 e2 + 20000)) := by
  have key : ∀ (rows : List CentRow) (c : String),
      dget (get_ref_centromeres rows) c =
        (rows.filter (fun r => r.keyword && r.chrom == c)).foldl centMergeStep none := by
    intro rows c
    rw [get_ref_centromeres, dget_foldl_centDictStep]
    rfl
  refine ⟨key, ?_, ?_⟩
  · intro c s e
    rw [key]
    simp [centMergeStep]
  · intro c s1 e1 s2 e2
    rw [key]
    simp [centMergeStep]

theorem wq_mass_step {α : Type} {k : Nat} {s s' : WQState α k} (hstep : WQStep s s')
    {M : Multiset α} (ih : (s.queue : Multiset α) + ∑ w, s.processed w = M) :
    (s'.queue : Multiset α) + ∑ w, s'.processed w = M := by
  cases hstep with
  | pop w r rest s2 hw hq =>
    rw [hq] at ih
    have hsum : (∑ w', Function.update s.processed w (s.processed w + {r}) w') =
        (∑ w', s.processed w') + {r} := by
      rw [Finset.sum_update_of_mem (Finset.mem_univ w),
        Finset.sum_eq_sum_diff_singleton_add (Finset.mem_univ w) s.processed]
      ac_rfl
    show ((rest : Multiset α) + ∑ w', Function.update s.processed w (s.processed w + {r}) w' = M)
    rw [hsum]
    have hq2 : ((rest ++ [r] : List α) : Multiset α) = (rest : Multiset α) + {r} := rfl
    rw [hq2] at ih
    rw [← ih]
    ac_rfl
  | exitW w s2 hw hq =>
    rw [hq] at ih
    show ((([] : List α) : Multiset α) + ∑ w', s.processed w' = M)
    exact ih

theorem wq_fin_step {α : Type} {k : Nat} {s s' : WQState α k} (hstep : WQStep s s')
    (ih : s.finished.Nonempty → s.queue = []) :
    s'.finished.Nonempty → s'.queue = [] := by
  cases hstep with
  | pop w r rest s2 hw hq =>
    intro hne
    have h0 := ih hne
    rw [h0] at hq
    exact absurd hq (by simp)
  | exitW w s2 hw hq =>
    intro _
    rfl

theorem wq_mass_invariant {α : Type} {k : Nat} (regions : List α) (s : WQState α k)
    (h : WQReach (WQInit α k regions) s) :
    (s.queue : Multiset α) + ∑ w, s.processed w = (regions : Multiset α) := by
  induction h with
  | refl => simp [WQInit]
  | tail _ hstep ih => exact wq_mass_step hstep ih

theorem wq_finished_imp_empty {α : Type} {k : Nat} (regions : List α) (s : WQState α k)
    (h : WQReach (WQInit α k regions) s) :
    s.finished.Nonempty → s.queue = [] := by
  induction h with
  | refl =>
    intro hne
    exact absurd hne (by simp [WQInit])
  | tail _ hstep ih => exact wq_fin_step hstep ih

/-- C2: for `N` regions and `K` workers (`0 < K ≤ N`), in any interleaved
execution in which every worker has terminated, the queue is exhausted, the
multiset of regions processed across all workers equals the original region
list, and (when the region list has no duplicates) every region was processed
by exactly one worker; a worker terminates exactly when its pop finds the
queue empty (the `exitW` rule, the only terminating transition, requires the
empty queue). -/
theorem workQueue_exactly_once {α : Type} [DecidableEq α] {k : Nat}
    (regions : List α) (s : WQState α k)
    (hk0 : 0 < k) (hkN : k ≤ regions.length)
    (hreach : WQReach (WQInit α k regions) s)
    (hfin : ∀ w : Fin k, w ∈ s.finished) :
    s.queue = [] ∧
    (∑ w, s.processed w) = (regions : Multiset α) ∧
    (regions.Nodup → ∀ r ∈ regions, ∃! w : Fin k, r ∈ s.processed w) := by
  have hempty : s.queue = [] := by
    apply wq_finished_imp_empty regions s hreach
    exact ⟨⟨0, hk0⟩, hfin ⟨0, hk0⟩⟩
  have hmass := wq_mass_invariant regions s hreach
  rw [hempty] at hmass
  simp only [Multiset.coe_nil, zero_add] at hmass
  refine ⟨hempty, hmass, ?_⟩
  intro hnd r hr
  have hcount : (∑ w, Multiset.count r (s.processed w)) = 1 := by
    rw [← Multiset.count_sum', hmass]
    exact Multiset.count_eq_one_of_mem (by exact_mod_cast hnd) (by exact_mod_cast hr)
  obtain ⟨w, hw⟩ : ∃ w, Multiset.count r (s.processed w) ≠ 0 := by
    by_contra hall
    push_neg at hall
    rw [Finset.sum_eq_zero (fun w _ => hall w)] at hcount
    exact one_ne_zero hcount.symm
  have hle : Multiset.count r (s.processed w) ≤ 1 := by
    rw [← hcount]
    exact Finset.single_le_sum (f := fun w' => Multiset.count r (s.processed w'))
      (fun _ _ => Nat.zero_le _) (Finset.mem_univ w)
  refine ⟨w, Multiset.count_pos.mp (by omega), ?_⟩
  intro w' hw'
  by_contra hne
  have hwne : w ≠ w' := fun h => hne (h.symm)
  have hps : (∑ x ∈ ({w, w'} : Finset (Fin k)), Multiset.count r (s.processed x)) =
      Multiset.count r (s.processed w) + Multiset.count r (s.processed w') :=
    Finset.sum_pair hwne
  have hpair : Multiset.count r (s.processed w) + Multiset.count r (s.processed w') ≤
      ∑ w'', Multiset.count r (s.processed w'') := by
    rw [← hps]
    exact Finset.sum_le_sum_of_subset (Finset.subset_univ _)
  have hcw' : 0 < Multiset.count r (s.processed w') := Multiset.count_pos.mpr hw'
  omega

/-- C2, witness: one worker drains a one-region queue; the pop then the
empty-pop exit reach the terminal state, where the theorem applies. -/
theorem workQueue_exactly_once_witness :
    WQReach (WQInit Region 1 [⟨"chrM", 0, 16569, ""⟩])
      ⟨[], fun _ => {⟨"chrM", 0, 16569, ""⟩}, insert 0 ∅⟩ ∧
    ((⟨[], fun _ => {⟨"chrM", 0, 16569, ""⟩}, insert 0 ∅⟩ : WQState Region 1).queue = [] ∧
    (∑ w, (⟨[], fun _ => {⟨"chrM", 0, 16569, ""⟩}, insert 0 ∅⟩ :
        WQState Region 1).processed w) =
      (([⟨"chrM", 0, 16569, ""⟩] : List Region) : Multiset Region) ∧
    (([⟨"chrM", 0, 16569, ""⟩] : List Region).Nodup →
      ∀ r ∈ ([⟨"chrM", 0, 16569, ""⟩] : List Region),
        ∃! w : Fin 1, r ∈ (⟨[], fun _ => {⟨"chrM", 0, 16569, ""⟩}, insert 0 ∅⟩ :
          WQState Region 1).processed w)) := by
  have h1 : WQStep (WQInit Region 1 [⟨"chrM", 0, 16569, ""⟩])
      (⟨[], fun _ => {⟨"chrM", 0, 16569, ""⟩}, ∅⟩ : WQState Region 1) := by
    have hs := WQStep.pop (k := 1) 0 (⟨"chrM", 0, 16569, ""⟩ : Region) []
      (WQInit Region 1 [⟨"chrM", 0, 16569, ""⟩]) (by simp [WQInit]) rfl
    convert hs using 2
    funext w
    have hw : w = 0 := Subsingleton.elim w 0
    subst hw
    simp [WQInit, Function.update]
  have h2 : WQStep (⟨[], fun _ => {⟨"chrM", 0, 16569, ""⟩}, ∅⟩ : WQState Region 1)
      (⟨[], fun _ => {⟨"chrM", 0, 16569, ""⟩}, insert 0 ∅⟩ : WQState Region 1) :=
    WQStep.exitW 0 (⟨[], fun _ => {⟨"chrM", 0, 16569, ""⟩}, ∅⟩ : WQState Region 1)
      (by simp) rfl
  have hreach : WQReach (WQInit Region 1 [⟨"chrM", 0, 16569, ""⟩])
      (⟨[], fun _ => {⟨"chrM", 0, 16569, ""⟩}, insert 0 ∅⟩ : WQState Region 1) :=
    Relation.ReflTransGen.head h1 (Relation.ReflTransGen.single h2)
  exact ⟨hreach, workQueue_exactly_once _ _ (by decide) (by decide) hreach (by decide)⟩

theorem lastOcc_eq_none_of_not_mem {α : Type} (l : List (String × α)) (k : String)
    (h : k ∉ dkeys l) : lastOcc l k = none := by
  induction l with
  | nil => rfl
  | cons p t ih =>
    rw [dkeys_cons, List.mem_cons] at h
    push_neg at h
    show (match lastOcc t k with
      | some v => some v
      | none => if p.1 = k then some p.2 else none) = none
    rw [ih h.2, if_neg (fun hc => h.1 hc.symm)]

theorem lastOcc_eq_dget {α : Type} (l : List (String × α)) (k : String)
    (hnd : (dkeys l).Nodup) : lastOcc l k = dget l k := by
  induction l with
  | nil => rfl
  | cons p t ih =>
    rw [dkeys_cons, List.nodup_cons] at hnd
    rw [dget_cons]
    show (match lastOcc t k with
      | some v => some v
      | none => if p.1 = k then some p.2 else none) = _
    by_cases hp : p.1 = k
    · rw [lastOcc_eq_none_of_not_mem t k (hp ▸ hnd.1), if_pos hp, if_pos hp]
    · rw [ih hnd.2, if_neg hp]
      cases dget t k <;> simp [hp]

theorem dget_foldl_dinsert {α : Type} (l : List (String × α)) (d : List (String × α))
    (k : String) :
    dget (l.foldl (fun d' p => dinsert d' p.1 p.2) d) k =
      match lastOcc l k with
      | some v => some v
      | none => dget d k := by
  induction l generalizing d with
  | nil => rfl
  | cons p t ih =>
    rw [List.foldl_cons, ih]
    cases hl : lastOcc t k with
    | some v => simp only [lastOcc, hl]
    | none =>
      simp only [lastOcc, hl]
      rw [dget_dinsert]
      by_cases hp : p.1 = k
      · rw [if_pos hp.symm, if_pos hp]
      · rw [if_neg (fun hc => hp hc.symm), if_neg hp]

theorem dget_buildDict (l : List (String × List VLine)) (k : String)
    (hnd : (dkeys l).Nodup) : dget (buildDict l) k = dget l k := by
  rw [buildDict, dget_foldl_dinsert, lastOcc_eq_dget l k hnd]
  cases dget l k <;> rfl

theorem dget_eq_some_iff_mem {α : Type} (l : List (String × α)) (k : String) (v : α)
    (hnd : (dkeys l).Nodup) : dget l k = some v ↔ (k, v) ∈ l := by
  induction l with
  | nil => simp [dget]
  | cons p t ih =>
    rw [dkeys_cons, List.nodup_cons] at hnd
    rw [dget_cons, List.mem_cons]
    by_cases hp : p.1 = k
    · rw [if_pos hp]
      constructor
      · intro hv
        have hv2 := Option.some.inj hv
        left
        obtain ⟨p1, p2⟩ := p
        simp only at hp hv2
        rw [hp, hv2]
      · rintro (h1 | h2)
        · rw [← h1]
        · exfalso
          apply hnd.1
          rw [hp]
          exact List.mem_map_of_mem (fun p => p.1) h2
    · rw [if_neg hp, ih hnd.2]
      constructor
      · intro h2
        exact Or.inr h2
      · rintro (h1 | h2)
        · exfalso
          apply hp
          rw [← h1]
        · exact h2

theorem dget_eq_of_perm {α : Type} (l₁ l₂ : List (String × α)) (hperm : l₁.Perm l₂)
    (hnd : (dkeys l₁).Nodup) (k : String) : dget l₁ k = dget l₂ k := by
  have hkp : (dkeys l₁).Perm (dkeys l₂) := by
    unfold dkeys
    exact hperm.map (fun p => p.1)
  have hnd₂ : (dkeys l₂).Nodup := hkp.nodup_iff.mp hnd
  cases hd : dget l₁ k with
  | none =>
    rw [dget_eq_none_iff] at hd
    rw [eq_comm, dget_eq_none_iff]
    exact fun hc => hd (hkp.mem_iff.mpr hc)
  | some v =>
    rw [dget_eq_some_iff_mem _ _ _ hnd] at hd
    rw [eq_comm, dget_eq_some_iff_mem _ _ _ hnd₂]
    exact hperm.mem_iff.mp hd

theorem foldl_appends (a : List VLine) (xs : List (List VLine)) :
    List.foldl runMergeStep a (xs.map MCmd.append ++ [MCmd.gzipF]) = a ++ xs.flatten := by
  induction xs generalizing a with
  | nil => simp [runMergeStep]
  | cons x t ih =>
    simp only [List.map_cons, List.cons_append, List.foldl_cons]
    rw [ih]
    simp [runMergeStep, List.append_assoc]

theorem flatten_flatMap {α β : Type} (l : List α) (g : α → List (List β)) :
    (l.flatMap g).flatten = l.flatMap (fun a => (g a).flatten) := by
  induction l with
  | nil => rfl
  | cons x t ih => simp [List.flatMap_cons, List.flatten_append, ih]

theorem flatMap_congr_mem {α β : Type} (l : List α) (f g : α → List β)
    (h : ∀ a ∈ l, f a = g a) : l.flatMap f = l.flatMap g := by
  induction l with
  | nil => rfl
  | cons x t ih =>
    simp only [List.flatMap_cons]
    rw [h x (List.mem_cons_self x t), ih (fun a ha => h a (List.mem_cons_of_mem x ha))]

theorem sortedChrNames_ne_mito (cs : Bool) :
    ∀ i ∈ sortedChrNames cs, ¬(i = "chrM" ∨ i = "MT") := by
  cases cs <;> decide

theorem filterN_stripHdr (x : List VLine) :
    filterN (stripHdr x) = x.filter (fun l => !isHeader l && !(fourthField l == "N")) := by
  unfold filterN stripHdr
  rw [List.filter_filter]
  apply List.filter_congr
  intro a _
  exact Bool.and_comm _ _

theorem filterN_keepHdr (x : List VLine)
    (hwf : ∀ l ∈ x, isHeader l = true → ¬(fourthField l = "N")) :
    filterN x = x.filter (fun l => isHeader l || !(fourthField l == "N")) := by
  unfold filterN
  apply List.filter_congr
  intro a ha
  cases hh : isHeader a
  · simp
  · have hne := hwf a ha hh
    simp [hne]

theorem runMerge_mergeCmds (d : String → List VLine) (cs : Bool)
    (hwf : ∀ l ∈ d (mitoKey cs), isHeader l = true → ¬(fourthField l = "N")) :
    runMerge (mergeCmds d cs) = specMergedVcf d cs := by
  have hmito := sortedChrNames_ne_mito cs
  have hmid : ((sortedChrNames cs).flatMap (fun i =>
      if i = "chrM" ∨ i = "MT" then ([] : List MCmd)
      else [MCmd.append (filterN (stripHdr (d (i ++ "p")))),
            MCmd.append (filterN (stripHdr (d (i ++ "q"))))])) =
      ((sortedChrNames cs).flatMap (fun i =>
        [filterN (stripHdr (d (i ++ "p"))), filterN (stripHdr (d (i ++ "q")))])).map
        MCmd.append := by
    rw [List.map_flatMap]
    apply flatMap_congr_mem
    intro i hi
    rw [if_neg (hmito i hi)]
    rfl
  unfold mergeCmds runMerge
  rw [hmid, List.append_assoc, List.singleton_append, List.foldl_cons]
  show List.foldl runMergeStep (filterN (d (mitoKey cs))) _ = _
  rw [foldl_appends]
  unfold specMergedVcf
  rw [← filterN_keepHdr _ hwf]
  congr 1
  rw [flatten_flatMap]
  apply flatMap_congr_mem
  intro i hi
  simp only [List.flatten_cons, List.flatten_nil, List.append_nil]
  rw [filterN_stripHdr, filterN_stripHdr]

/-- C3: with the per-region artifacts present and the mitochondrial artifact's
header lines free of an awk fourth field `"N"` (true of well-formed VCF
headers), the merged file is the mitochondrial artifact with `"N"`-reference
records removed and header kept, followed for each contig in the fixed order
1..22, X, Y by its `p`-arm then `q`-arm artifact with headers and
`"N"`-reference records stripped; the content is identical for any
permutation of the artifact list (worker completion order), and the final
command issued is the compression of the merged artifact. -/
theorem merge_and_filter_determinism
    (arts arts2 : List (String × List VLine)) (cs : Bool)
    (hperm : arts.Perm arts2)
    (hnd : (dkeys arts).Nodup)
    (hpresent : ∀ k ∈ neededKeys cs, (dget (buildDict arts) k).isSome = true)
    (hwf : ∀ l ∈ dictLookup (buildDict arts) (mitoKey cs),
      isHeader l = true → ¬(fourthField l = "N")) :
    runMerge (mergeCmds (dictLookup (buildDict arts)) cs) =
      specMergedVcf (dictLookup (buildDict arts)) cs ∧
    runMerge (mergeCmds (dictLookup (buildDict arts2)) cs) =
      runMerge (mergeCmds (dictLookup (buildDict arts)) cs) ∧
    (mergeCmds (dictLookup (buildDict arts)) cs).getLast? = some MCmd.gzipF := by
  have hnd₂ : (dkeys arts2).Nodup := by
    have hkp : (dkeys arts).Perm (dkeys arts2) := by
      unfold dkeys
      exact hperm.map (fun p => p.1)
    exact hkp.nodup_iff.mp hnd
  have hlook : dictLookup (buildDict arts2) = dictLookup (buildDict arts) := by
    funext k
    unfold dictLookup
    rw [dget_buildDict _ _ hnd₂, dget_buildDict _ _ hnd,
      ← dget_eq_of_perm arts arts2 hperm hnd k]
  refine ⟨runMerge_mergeCmds _ _ hwf, ?_, ?_⟩
  · rw [hlook]
  · unfold mergeCmds
    exact List.getLast?_concat _

/-- C3, witness: the merge theorem applied to the concrete artifact store and
its reversed listing. -/
theorem merge_and_filter_determinism_witness :
    runMerge (mergeCmds (dictLookup (buildDict c3Arts)) false) =
      specMergedVcf (dictLookup (buildDict c3Arts)) false ∧
    runMerge (mergeCmds (dictLookup (buildDict c3Arts2)) false) =
      runMerge (mergeCmds (dictLookup (buildDict c3Arts)) false) ∧
    (mergeCmds (dictLookup (buildDict c3Arts)) false).getLast? = some MCmd.gzipF :=
  merge_and_filter_determinism c3Arts c3Arts2 false (by decide) (by decide) (by decide)
    (by decide)

theorem foldl_append_singleton {α β : Type} (f : α → β) (l : List α) (a : List β) :
    l.foldl (fun out x => out ++ [f x]) a = a ++ l.map f := by
  induction l generalizing a with
  | nil => simp
  | cons x t ih => simp [ih]

/-- C6: every data row of the segment file yields exactly one seed — no gain
or size filtering — whose copy number is `2 ^ (log2ratio + 1)` and whose
source label is `CNVkit`; in particular log2ratio 0 gives copy number 2 and
log2ratio 1 gives copy number 4. -/
theorem convert_cnvkit_unconditional (lines : List CnsLine) :
    (convert_cnvkit_cnv_to_seeds lines).length = (lines.drop 1).length ∧
    (∀ i : Nat, (convert_cnvkit_cnv_to_seeds lines).get? i =
      ((lines.drop 1).get? i).map
        (fun r => ⟨r.chrom, r.startF, r.endF, "CNVkit", (2:ℝ) ^ (r.log2r + 1)⟩)) ∧
    (2:ℝ) ^ ((0:ℝ) + 1) = 2 ∧
    (2:ℝ) ^ ((1:ℝ) + 1) = 4 := by
  have hconv : convert_cnvkit_cnv_to_seeds lines =
      (lines.drop 1).map
        (fun r => ⟨r.chrom, r.startF, r.endF, "CNVkit", (2:ℝ) ^ (r.log2r + 1)⟩) := by
    unfold convert_cnvkit_cnv_to_seeds
    rw [foldl_append_singleton]
    rfl
  refine ⟨?_, ?_, ?_, ?_⟩
  · rw [hconv, List.length_map]
  · intro i
    rw [hconv, List.get?_map]
  · rw [zero_add, Real.rpow_one]
  · rw [show ((1:ℝ) + 1) = ((2:ℕ) : ℝ) by norm_num, Real.rpow_natCast]
    norm_num

theorem not_mem_ite_nil {e : Ev} {c : Prop} [Decidable c] {l : List Ev}
    (h : e ∉ l) : e ∉ (if c then l else []) := by
  split
  · exact h
  · simp

theorem not_mem_append_ev {e : Ev} {l₁ l₂ : List Ev} (h₁ : e ∉ l₁) (h₂ : e ∉ l₂) :
    e ∉ l₁ ++ l₂ := by
  intro h
  rcases List.mem_append.mp h with h | h
  · exact h₁ h
  · exact h₂ h

theorem flush_not_in_alignEvents (a : Args) (e : Ev)
    (he : e = Ev.flushRunMeta ∨ e = Ev.flushSampleMeta) : e ∉ alignEvents a := by
  unfold alignEvents
  rcases he with rfl | rfl <;>
    exact not_mem_append_ev (not_mem_ite_nil (by decide)) (not_mem_ite_nil (by decide))

theorem flush_not_in_cnvStage (a : Args) (e : Ev)
    (he : e = Ev.flushRunMeta ∨ e = Ev.flushSampleMeta) : e ∉ cnvStageEvents a := by
  unfold cnvStageEvents
  rcases he with rfl | rfl <;>
  · split
    · exact not_mem_append_ev (not_mem_ite_nil (by decide)) (by decide)
    · split
      · decide
      · split
        · exact not_mem_append_ev
            (not_mem_append_ev (by decide) (not_mem_ite_nil (by decide))) (by decide)
        · simp

theorem flush_not_in_cnsEvents (a : Args) (e : Ev)
    (he : e = Ev.flushRunMeta ∨ e = Ev.flushSampleMeta) : e ∉ cnsEvents a := by
  unfold cnsEvents
  rcases he with rfl | rfl <;> exact not_mem_ite_nil (by decide)

theorem flush_not_in_seedFilterEvents (a : Args) (e : Ev)
    (he : e = Ev.flushRunMeta ∨ e = Ev.flushSampleMeta) : e ∉ seedFilterEvents a := by
  unfold seedFilterEvents
  rcases he with rfl | rfl <;>
    exact not_mem_append_ev (not_mem_ite_nil (by decide)) (not_mem_ite_nil (by decide))

theorem flush_not_in_aaStageEvents (a : Args) (e : Ev)
    (he : e = Ev.flushRunMeta ∨ e = Ev.flushSampleMeta) : e ∉ aaStageEvents a := by
  unfold aaStageEvents
  rcases he with rfl | rfl <;>
  · split
    · exact not_mem_append_ev (by decide) (not_mem_ite_nil (by decide))
    · simp

theorem count_finalizeEvents (a : Args) :
    (finalizeEvents a).count Ev.flushRunMeta = 1 ∧
    (finalizeEvents a).count Ev.flushSampleMeta = 1 := by
  unfold finalizeEvents
  constructor <;>
  · rw [List.count_append, List.count_append,
      List.count_eq_zero.mpr (not_mem_ite_nil (by decide))]
    decide

theorem count_flush_fullBranch (a : Args) :
    (fullBranchEvents a).count Ev.flushRunMeta = 1 ∧
    (fullBranchEvents a).count Ev.flushSampleMeta = 1 := by
  unfold fullBranchEvents
  constructor <;>
  · rw [List.count_append, List.count_append, List.count_append, List.count_append,
      List.count_append, List.count_append,
      List.count_eq_zero.mpr (flush_not_in_alignEvents a _ (by simp)),
      List.count_eq_zero.mpr (flush_not_in_cnvStage a _ (by simp)),
      List.count_eq_zero.mpr (flush_not_in_cnsEvents a _ (by simp)),
      List.count_eq_zero.mpr (flush_not_in_seedFilterEvents a _ (by simp)),
      List.count_eq_zero.mpr (flush_not_in_aaStageEvents a _ (by simp))]
    first
      | (rw [(count_finalizeEvents a).1]; decide)
      | (rw [(count_finalizeEvents a).2]; decide)

/-- C4, counterexample.  In the classify-a-pre-completed-run branch
(`--completed_AA_runs` supplied) the controller never calls
`save_run_metadata`: the trace contains zero run-metadata flushes (and one
sample-metadata flush), refuting the claim that both terminal branches flush
both records exactly once. -/
theorem terminalFlush_counterexample :
    (mainTrace aClassify).events.count Ev.flushRunMeta = 0 ∧
    (mainTrace aClassify).events.count Ev.flushSampleMeta = 1 := by
  constructor <;> decide

/-- C4, amended.  The full-pipeline terminal branch flushes both the
run-metadata record and the sample-metadata record exactly once before exit;
the classify-a-pre-completed-run branch flushes only the sample-metadata
record exactly once, recording the externally supplied run-metadata path in
the sample record instead of writing a run-metadata record of its own. -/
theorem terminalFlush_amended (a : Args) :
    (a.completed_AA_runs = "" → a.align_only = false →
      ((mainTrace a).events.count Ev.flushRunMeta = 1 ∧
        (mainTrace a).events.count Ev.flushSampleMeta = 1)) ∧
    (¬a.completed_AA_runs = "" →
      ((mainTrace a).events.count Ev.flushRunMeta = 0 ∧
        (mainTrace a).events.count Ev.flushSampleMeta = 1 ∧
        (mainTrace a).runMetadataFileField = some a.completed_run_metadata)) := by
  constructor
  · intro h1 h2
    have htr : (mainTrace a).events = fullBranchEvents a := by
      unfold mainTrace
      rw [if_pos h1, if_neg (by simp [h2])]
    rw [htr]
    exact count_flush_fullBranch a
  · intro h1
    have htr : mainTrace a =
        { events := (if a.fastqs then [Ev.runBwa] else []) ++
            [Ev.runACEv, Ev.makeACTableEv, Ev.flushSampleMeta],
          exitCode := 0, runMetadataFileField := some a.completed_run_metadata } := by
      unfold mainTrace
      rw [if_neg h1]
    rw [htr]
    refine ⟨?_, ?_, rfl⟩
    · rw [List.count_append, List.count_eq_zero.mpr (not_mem_ite_nil (by decide))]
      decide
    · rw [List.count_append, List.count_eq_zero.mpr (not_mem_ite_nil (by decide))]
      decide

/-- C4, witness for the amended theorem: the full-pipeline configuration
flushes both records exactly once. -/
theorem terminalFlush_amended_witness :
    (mainTrace aFull).events.count Ev.flushRunMeta = 1 ∧
    (mainTrace aFull).events.count Ev.flushSampleMeta = 1 :=
  (terminalFlush_amended aFull).1 rfl rfl

/-- C8: with the align-only stop point set (and not in the completed-runs
branch), the controller exits with status 0 immediately after the index/QC
stage: every event in the trace is the bwa stage or the QC check — so no CNV,
seed-filter or detection stage runs or records metadata — and neither the
run-metadata record nor the sample-metadata record is flushed. -/
theorem alignOnly_halts (a : Args) (h1 : a.completed_AA_runs = "")
    (h2 : a.align_only = true) :
    (mainTrace a).exitCode = 0 ∧
    (∀ e ∈ (mainTrace a).events, e = Ev.runBwa ∨ e = Ev.qcCheck) ∧
    (mainTrace a).events.count Ev.flushRunMeta = 0 ∧
    (mainTrace a).events.count Ev.flushSampleMeta = 0 ∧
    (mainTrace a).runMetadataFileField = none := by
  have htr : mainTrace a =
      { events := alignEvents a, exitCode := 0, runMetadataFileField := none } := by
    unfold mainTrace
    rw [if_pos h1, if_pos h2]
  rw [htr]
  refine ⟨rfl, ?_, ?_, ?_, rfl⟩
  · intro e he
    unfold alignEvents at he
    rcases List.mem_append.mp he with h | h
    · left
      rcases Bool.dichotomy a.fastqs with hf | hf <;> rw [hf] at h <;> simpa using h
    · right
      rcases Bool.dichotomy a.no_QC with hq | hq <;> rw [hq] at h <;> simpa using h
  · exact List.count_eq_zero.mpr (flush_not_in_alignEvents a _ (Or.inl rfl))
  · exact List.count_eq_zero.mpr (flush_not_in_alignEvents a _ (Or.inr rfl))

/-- C8, witness: the align-only configuration at a concrete argument
record. -/
theorem alignOnly_halts_witness :
    (mainTrace aAlignOnly).exitCode = 0 ∧
    (∀ e ∈ (mainTrace aAlignOnly).events, e = Ev.runBwa ∨ e = Ev.qcCheck) ∧
    (mainTrace aAlignOnly).events.count Ev.flushRunMeta = 0 ∧
    (mainTrace aAlignOnly).events.count Ev.flushSampleMeta = 0 ∧
    (mainTrace aAlignOnly).runMetadataFileField = none :=
  alignOnly_halts aAlignOnly rfl rfl

/-- C7: when the input seed file already ends in `_AA_CNV_SEEDS.bed`, the
seed-filter block is a no-op: no prefilter, no `amplified_intervals.py`
invocation, and the downstream amplified-interval bed is the input path
itself, whatever the `--no_filter` flag. -/
theorem seedFilter_idempotent (nf : Bool) (bed outdir sname : String)
    (h : strEndsWith bed "_AA_CNV_SEEDS.bed" = true) :
    seedFilterStep nf bed outdir sname =
      { ranPrefilter := false, ranAmplified := false, bed := bed } := by
  unfold seedFilterStep
  rw [h]
  simp

/-- C7, witness at a concrete already-filtered filename. -/
theorem seedFilter_idempotent_witness :
    seedFilterStep false "/out/s_AA_CNV_SEEDS.bed" "/out/" "s" =
      { ranPrefilter := false, ranAmplified := false, bed := "/out/s_AA_CNV_SEEDS.bed" } :=
  seedFilter_idempotent false "/out/s_AA_CNV_SEEDS.bed" "/out/" "s" (by decide)

/-- C10: a ploidy estimate of 0 or a purity estimate of 0.0 behaves exactly
as if the estimate were absent, because both the controller's guard and
`rescale_cnvkit_calls` test presence by truthiness: the external command is
identical with `some 0` and with `none` (the corresponding flag omitted), the
no-effect warning fires exactly when both estimates are zero or absent, the
controller's rescaling guard is off exactly when both are zero or absent, and
the whole controller trace with zero estimates equals the trace with no
estimates. -/
theorem zeroEstimates_behave_asAbsent :
    (∀ pu : Option ℚ, rescale_cnvkit_calls (some 0) pu = rescale_cnvkit_calls none pu) ∧
    (∀ pl : Option Int, rescale_cnvkit_calls pl (some 0) = rescale_cnvkit_calls pl none) ∧
    (∀ (pl : Option Int) (pu : Option ℚ),
      ((rescale_cnvkit_calls pl pu).warned = true ↔
        ((pl = none ∨ pl = some 0) ∧ (pu = none ∨ pu = some 0)))) ∧
    (∀ a : Args, rescaleGuard a = false ↔
      ((a.ploidy = none ∨ a.ploidy = some 0) ∧ (a.purity = none ∨ a.purity = some 0))) ∧
    (∀ a : Args, a.ploidy = some 0 → a.purity = some 0 →
      mainTrace a = mainTrace { a with ploidy := none, purity := none }) := by
  have htInt : ∀ pl : Option Int, truthyOptInt pl = false ↔ (pl = none ∨ pl = some 0) := by
    intro pl
    cases pl with
    | none => simp [truthyOptInt]
    | some n => simp [truthyOptInt]
  have htRat : ∀ pu : Option ℚ, truthyOptRat pu = false ↔ (pu = none ∨ pu = some 0) := by
    intro pu
    cases pu with
    | none => simp [truthyOptRat]
    | some q => simp [truthyOptRat]
  refine ⟨?_, ?_, ?_, ?_, ?_⟩
  · intro pu
    rfl
  · intro pl
    unfold rescale_cnvkit_calls truthyOptRat
    norm_num
  · intro pl pu
    unfold rescale_cnvkit_calls
    simp only [Bool.and_eq_true, Bool.not_eq_true']
    rw [htInt, htRat]
    exact and_comm
  · intro a
    unfold rescaleGuard
    rw [Bool.or_eq_false_iff]
    rw [htInt, htRat]
  · intro a h1 h2
    obtain ⟨f1, f2, f3, f4, f5, f6, f7, f8, f9, f10, f11, f12, f13, f14, f15, f16,
      f17, f18⟩ := a
    simp only at h1 h2
    subst h1
    subst h2
    rfl

/-- C10, witness: the zero-estimate CNVkit configuration's trace equals the
no-estimate trace, and the rescaling guard is off. -/
theorem zeroEstimates_behave_asAbsent_witness :
    mainTrace aZero = mainTrace { aZero with ploidy := none, purity := none } ∧
    rescaleGuard aZero = false :=
  ⟨zeroEstimates_behave_asAbsent.2.2.2.2 aZero rfl rfl,
    (zeroEstimates_behave_asAbsent.2.2.2.1 aZero).mpr ⟨Or.inr rfl, Or.inr rfl⟩⟩

theorem dget_fillNA (ks : List String) (d : List (String × String)) (k : String) :
    dget (ks.foldl (fun m x => if dget m x = none then dinsert m x "NA" else m) d) k =
      if k ∈ ks ∧ dget d k = none then some "NA" else dget d k := by
  induction ks generalizing d with
  | nil => simp
  | cons x t ih =>
    rw [List.foldl_cons, ih]
    by_cases hd : dget d x = none
    · rw [if_pos hd, dget_dinsert]
      by_cases hk : k = x
      · subst hk
        rw [if_pos rfl]
        have hss : ¬(some "NA" = (none : Option String)) := by simp
        rw [if_neg (fun hc => hss hc.2), if_pos ⟨List.mem_cons_self k t, hd⟩]
      · rw [if_neg hk]
        by_cases hmem : k ∈ t ∧ dget d k = none
        · rw [if_pos hmem, if_pos ⟨List.mem_cons_of_mem x hmem.1, hmem.2⟩]
        · rw [if_neg hmem, if_neg (fun hc => hmem ⟨(List.mem_cons.mp hc.1).resolve_left hk, hc.2⟩)]
    · rw [if_neg hd]
      by_cases hk : k = x
      · subst hk
        rw [if_neg (fun hc => hd hc.2), if_neg (fun hc => hd hc.2)]
      · by_cases hmem : k ∈ t ∧ dget d k = none
        · rw [if_pos hmem, if_pos ⟨List.mem_cons_of_mem x hmem.1, hmem.2⟩]
        · rw [if_neg hmem, if_neg (fun hc => hmem ⟨(List.mem_cons.mp hc.1).resolve_left hk, hc.2⟩)]

theorem dget_md6 (md : List (String × String)) (lt hn rg pv cs : String) (k : String) :
    dget (dinsert (dinsert (dinsert (dinsert (dinsert (dinsert md
        "launch_datetime" lt) "hostname" hn) "ref_genome" rg)
        "AA_python_version" pv) "PAA_command" cs) "PAA_version" "0.1203.13") k =
      if k = "PAA_version" then some "0.1203.13"
      else if k = "PAA_command" then some cs
      else if k = "AA_python_version" then some pv
      else if k = "ref_genome" then some rg
      else if k = "hostname" then some hn
      else if k = "launch_datetime" then some lt
      else dget md k := by
  rw [dget_dinsert, dget_dinsert, dget_dinsert, dget_dinsert, dget_dinsert, dget_dinsert]

/-- C9: whatever stage commands were accumulated (the accumulated keys are
stage keys), the record `save_run_metadata` persists contains exactly the
fixed schema's keys — a key is present if and only if it belongs to the
schema, so the key set is the same on every execution path — and every stage
key that was never assigned holds the sentinel `"NA"` rather than being
omitted. -/
theorem save_run_metadata_schema (md : List (String × String)) (lt hn rg pv cs : String)
    (hsub : ∀ k ∈ dkeys md, k ∈ stageMetaKeys) :
    (∀ k : String, (dget (save_run_metadata md lt hn rg pv cs) k).isSome = true ↔
      k ∈ runMetaSchema) ∧
    (∀ k ∈ stageMetaKeys, dget md k = none →
      dget (save_run_metadata md lt hn rg pv cs) k = some "NA") := by
  constructor
  · intro k
    unfold save_run_metadata
    rw [dget_fillNA, dget_md6]
    by_cases h1 : k = "PAA_version"
    · subst h1
      simp [runMetaSchema, stageMetaKeys]
    rw [if_neg h1]
    by_cases h2 : k = "PAA_command"
    · subst h2
      simp [runMetaSchema, stageMetaKeys]
    rw [if_neg h2]
    by_cases h3 : k = "AA_python_version"
    · subst h3
      simp [runMetaSchema, stageMetaKeys]
    rw [if_neg h3]
    by_cases h4 : k = "ref_genome"
    · subst h4
      simp [runMetaSchema, stageMetaKeys]
    rw [if_neg h4]
    by_cases h5 : k = "hostname"
    · subst h5
      simp [runMetaSchema, stageMetaKeys]
    rw [if_neg h5]
    by_cases h6 : k = "launch_datetime"
    · subst h6
      simp [runMetaSchema, stageMetaKeys]
    rw [if_neg h6]
    by_cases hst : k ∈ stageMetaKeys
    · constructor
      · intro _
        unfold runMetaSchema
        exact List.mem_append_right _ hst
      · intro _
        by_cases hmd : dget md k = none
        · rw [if_pos ⟨hst, hmd⟩]
          rfl
        · rw [if_neg (fun hc => hmd hc.2)]
          cases hmd2 : dget md k with
          | none => exact absurd hmd2 hmd
          | some v => rfl
    · rw [if_neg (fun hc => hst hc.1)]
      have hnone : dget md k = none := by
        rw [dget_eq_none_iff]
        intro hmem
        exact hst (hsub k hmem)
      rw [hnone]
      constructor
      · intro habs
        exact absurd habs (by simp)
      · intro hin
        exfalso
        unfold runMetaSchema at hin
        rcases List.mem_append.mp hin with hc | hc2
        · simp only [List.mem_cons, List.not_mem_nil, or_false] at hc
          rcases hc with h | h | h | h | h | h
          · exact h6 h
          · exact h5 h
          · exact h4 h
          · exact h3 h
          · exact h2 h
          · exact h1 h
        · exact hst hc2
  · intro k hk hnone
    unfold save_run_metadata
    rw [dget_fillNA, dget_md6]
    have hkl : k = "bwa_cmd" ∨ k = "cnvkit_cmd" ∨ k = "amplified_intervals_cmd" ∨
        k = "AA_cmd" ∨ k = "AC_cmd" ∨ k = "cnvkit_version" ∨ k = "AA_version" ∨
        k = "AC_version" := by
      simpa [stageMetaKeys] using hk
    rcases hkl with rfl | rfl | rfl | rfl | rfl | rfl | rfl | rfl <;>
      simp [hnone, stageMetaKeys]

/-- C9, witness: a run that only recorded the bwa stage persists the full
schema with `"NA"` for the remaining stage keys. -/
theorem save_run_metadata_schema_witness :
    (∀ k : String, (dget (save_run_metadata [("bwa_cmd", "bwa mem ref r1 r2")]
        "t0" "host" "GRCh38" "Python 2.7.5" "PrepareAA.py -s s") k).isSome = true ↔
      k ∈ runMetaSchema) ∧
    (∀ k ∈ stageMetaKeys, dget [("bwa_cmd", "bwa mem ref r1 r2")] k = none →
      dget (save_run_metadata [("bwa_cmd", "bwa mem ref r1 r2")]
        "t0" "host" "GRCh38" "Python 2.7.5" "PrepareAA.py -s s") k = some "NA") :=
  save_run_metadata_schema [("bwa_cmd", "bwa mem ref r1 r2")]
    "t0" "host" "GRCh38" "Python 2.7.5" "PrepareAA.py -s s" (by decide)
